import Mathlib

/-!
Verification of the core of `ts-status-stats` (Tailscale status collector):
a shallow embedding of `src/ts_status_stats/collector.py` (the flattening
algorithm `_flatten_dict`, record preparation `_prepare_record`, the
partitioned append store `save_status`) and `src/ts_status_stats/config.py`
(configuration validation), together with theorems settling the spec's
claims about them.

Python dictionaries are modelled as association lists with Python's
insertion-order semantics: assigning to an existing key replaces the value
in place, assigning to a fresh key appends at the end.  JSON documents are
modelled by the inductive type `JVal` (scalars, string-keyed mappings in
iteration order, and sequences).  Parquet files handled through pandas are
modelled by `Table` (a column list and a row list); `pd.DataFrame([record])`,
`pd.concat`, and the read/rewrite cycle of `save_status` are embedded as
pure functions on `Option Table` (the file's prior content, `none` when the
file does not exist).  Wall-clock instants are passed explicitly as a
`DateTime` value.
-/

namespace TsStats

/-- A JSON scalar leaf: string, integer, boolean or null. -/
inductive Scalar where
  | str (s : String)
  | int (n : Int)
  | bool (b : Bool)
  | null
deriving DecidableEq, Repr

/-- A JSON-like document tree: scalar leaves, mappings from string keys to
values (in iteration order), and ordered sequences. -/
inductive JVal where
  | scalar (v : Scalar)
  | obj (kvs : List (String × JVal))
  | arr (xs : List JVal)

/-- A flat record: a Python dict from synthetic keys to scalar values,
in insertion order. -/
abbrev Dict := List (String × Scalar)

/-- Python `d[k]` lookup (first binding of `k`), `none` when absent. -/
def dget {α : Type} : List (String × α) → String → Option α
  | [], _ => none
  | (k', v) :: rest, k => if k' = k then some v else dget rest k

/-- The key list of a dict, in order. -/
def dkeys {α : Type} (d : List (String × α)) : List String :=
  d.map Prod.fst

/-- Python `d[k] = v`: replace the value in place when `k` is already
present, otherwise append the new binding at the end. -/
def dinsert (d : Dict) (k : String) (v : Scalar) : Dict :=
  if k ∈ dkeys d then
    d.map (fun p => if p.1 = k then (p.1, v) else p)
  else
    d ++ [(k, v)]

/-- Python `d.update(u)`: assign each binding of `u` into `d`, in order. -/
def dupdate (d : Dict) (u : Dict) : Dict :=
  u.foldl (fun acc p => dinsert acc p.1 p.2) d

mutual

/-- Embedding of `TailscaleCollector._flatten_dict(obj, parent_key, sep)`: flatten nested
mappings and sequences into a single-level dict.  A mapping child key is
`parent_key ++ sep ++ k` when `parent_key` is non-empty, else `k`; a
sequence child key is `parent_key ++ "_" ++ i` (hard-coded underscore, as
in the source) when `parent_key` is non-empty, else `toString i`; a scalar
passed directly yields the single binding `(parent_key, v)`. -/
def flatten_dict : JVal → String → String → Dict
  | .scalar v, parent_key, _ => [(parent_key, v)]
  | .obj kvs, parent_key, sep => flattenObj kvs parent_key sep []
  | .arr xs, parent_key, sep => flattenArr xs parent_key sep 0 []

/-- The `for k, v in obj.items()` loop of `_flatten_dict`, threading the
`items` accumulator. -/
def flattenObj : List (String × JVal) → String → String → Dict → Dict
  | [], _, _, items => items
  | (k, v) :: rest, parent_key, sep, items =>
    let new_key := if parent_key ≠ "" then parent_key ++ sep ++ k else k
    let items' :=
      match v with
      | .scalar s => dinsert items new_key s
      | .obj _ => dupdate items (flatten_dict v new_key sep)
      | .arr _ => dupdate items (flatten_dict v new_key sep)
    flattenObj rest parent_key sep items'

/-- The `for i, item in enumerate(obj)` loop of `_flatten_dict`, threading
the index and the `items` accumulator. -/
def flattenArr : List JVal → String → String → Nat → Dict → Dict
  | [], _, _, _, items => items
  | v :: rest, parent_key, sep, i, items =>
    let new_key := if parent_key ≠ "" then parent_key ++ "_" ++ toString i else toString i
    let items' :=
      match v with
      | .scalar s => dinsert items new_key s
      | .obj _ => dupdate items (flatten_dict v new_key sep)
      | .arr _ => dupdate items (flatten_dict v new_key sep)
    flattenArr rest parent_key sep (i + 1) items'

end

mutual

/-- The number of scalar leaves of a document (empty containers contribute
zero). -/
def leaves : JVal → Nat
  | .scalar _ => 1
  | .obj kvs => leavesObj kvs
  | .arr xs => leavesArr xs

/-- Leaf count of a mapping's entry list. -/
def leavesObj : List (String × JVal) → Nat
  | [] => 0
  | (_, v) :: rest => leaves v + leavesObj rest

/-- Leaf count of a sequence's element list. -/
def leavesArr : List JVal → Nat
  | [] => 0
  | v :: rest => leaves v + leavesArr rest

end

/-- The child key the source assigns to the element at index `i` of a
sequence with prefix `P` (hard-coded underscore separator, as in the
source's list branch). -/
def arrKey (P : String) (i : Nat) : String :=
  if P ≠ "" then P ++ "_" ++ toString i else toString i

/-- A wall-clock instant as `datetime.now()` exposes it: local calendar
date plus time of day to microsecond precision. -/
structure DateTime where
  year : Nat
  month : Nat
  day : Nat
  hour : Nat
  minute : Nat
  second : Nat
  microsecond : Nat
deriving DecidableEq, Repr

/-- Zero-pad a number to two digits (Python `f"{n:02d}"` for `n ≥ 0`). -/
def pad2 (n : Nat) : String :=
  if n < 10 then "0" ++ toString n else toString n

/-- Zero-pad a number to four digits (Python `strftime` `%Y` for `n ≥ 0`). -/
def pad4 (n : Nat) : String :=
  if n < 10 then "000" ++ toString n
  else if n < 100 then "00" ++ toString n
  else if n < 1000 then "0" ++ toString n
  else toString n

/-- Zero-pad a number to six digits (Python `isoformat` microseconds). -/
def pad6 (n : Nat) : String :=
  if n < 10 then "00000" ++ toString n
  else if n < 100 then "0000" ++ toString n
  else if n < 1000 then "000" ++ toString n
  else if n < 10000 then "00" ++ toString n
  else if n < 100000 then "0" ++ toString n
  else toString n

/-- Python `now.strftime("%Y%m%d")`: the capture date as `yyyymmdd`. -/
def strftimeYmd (t : DateTime) : String :=
  pad4 t.year ++ pad2 t.month ++ pad2 t.day

/-- Python `datetime.isoformat()`: `yyyy-mm-ddThh:mm:ss` followed by
`.ffffff` when the microsecond field is non-zero — second-or-finer
precision in ISO-8601. -/
def isoformat (t : DateTime) : String :=
  pad4 t.year ++ "-" ++ pad2 t.month ++ "-" ++ pad2 t.day ++ "T"
    ++ pad2 t.hour ++ ":" ++ pad2 t.minute ++ ":" ++ pad2 t.second
    ++ (if t.microsecond = 0 then "" else "." ++ pad6 t.microsecond)

/-- Embedding of `TailscaleCollector._prepare_record(status_data)`: flatten with the
default prefix `""` and separator `"_"`, then assign the capture timestamp
under `"_timestamp"` — assigned last, so it overwrites any key of the
document that flattened to `"_timestamp"`. -/
def prepare_record (status_data : JVal) (nowIso : String) : Dict :=
  let record := flatten_dict status_data "" "_"
  dinsert record "_timestamp" (.str nowIso)

/-- A Parquet file's logical content as pandas sees it: the column list
and the ordered rows (a row's missing columns read back as null). -/
structure Table where
  cols : List String
  rows : List Dict
deriving DecidableEq, Repr

/-- Pandas `pd.DataFrame([record])`: one row, the record's keys as columns. -/
def mkDataFrame (record : Dict) : Table :=
  ⟨dkeys record, [record]⟩

/-- Pandas `pd.concat([t1, t2], ignore_index=True)`: columns are the union in
order of first appearance, rows are concatenated; a row lacking a column
holds null there. -/
def concatTables (t1 t2 : Table) : Table :=
  ⟨t1.cols ++ t2.cols.filter (fun c => ¬ t1.cols.contains c), t1.rows ++ t2.rows⟩

/-- The cell of `t` at row index `r` and column `c`; `none` is pandas'
null/absent value. -/
def cell (t : Table) (r : Nat) (c : String) : Option Scalar :=
  (t.rows.get? r).bind (fun row => dget row c)

/-- Python `file_name_format.format(date=date_str)` on the character
list: every occurrence of the placeholder `{date}` is replaced by the
rendered date. -/
def substDate : List Char → List Char → List Char
  | '{' :: 'd' :: 'a' :: 't' :: 'e' :: '}' :: rest, date => date ++ substDate rest date
  | c :: rest, date => c :: substDate rest date
  | [], _ => []

/-- Python `file_name_format.format(date=date_str)`. -/
def formatDate (fmt date : String) : String :=
  ⟨substDate fmt.data date.data⟩

/-- Embedding of `TailscaleCollector.save_status(status_data)`: compute the partition
path `<base_location>/<year>/<02d month>/<template with {date} := yyyymmdd>`
from the current wall clock, prepare the record, build the one-row frame,
concatenate after the existing file's rows when the file exists, and
return the path together with the file content written.  `existing` is the
prior content of the target file (`none` when it does not exist) and
`tsIso` the capture timestamp string produced inside `_prepare_record`. -/
def save_status (base_location file_name_format : String) (now : DateTime)
    (tsIso : String) (status_data : JVal) (existing : Option Table) :
    String × Table :=
  let year_month_path := base_location ++ "/" ++ toString now.year ++ "/" ++ pad2 now.month
  let date_str := strftimeYmd now
  let filename := formatDate file_name_format date_str
  let file_path := year_month_path ++ "/" ++ filename
  let record := prepare_record status_data tsIso
  let df := mkDataFrame record
  let df' :=
    match existing with
    | some existing_df => concatTables existing_df df
    | none => df
  (file_path, df')

/-- A YAML scalar as it reaches the configuration loader. -/
inductive YVal where
  | int (n : Int)
  | str (s : String)
deriving DecidableEq, Repr

/-- The integer a YAML value contributes where Python expects one. -/
def yamlInt : YVal → Int
  | .int n => n
  | .str _ => 0

/-- The string a YAML value contributes where Python expects one. -/
def yamlStr : YVal → String
  | .str s => s
  | .int n => toString n

/-- The validated configuration dataclass. -/
structure Config where
  interval : Int
  base_location : String
  file_name_format : String
deriving DecidableEq, Repr

/-- Embedding of `Config.__post_init__`: constructing a configuration validates the
interval, raising `ValueError` (modelled as `.error`) when it is not
positive. -/
def mkConfig (interval : Int) (base_location : String) (file_name_format : String) :
    Except String Config :=
  if interval ≤ 0 then .error "interval must be greater than 0"
  else .ok ⟨interval, base_location, file_name_format⟩

/-- The required configuration fields of `load_config`. -/
def requiredFields : List String := ["interval", "base_location"]

/-- Embedding of `load_config` after YAML parsing: reject a dict missing any required
field with an error naming the missing fields, otherwise extract the
settings (defaulting the file-name template) and construct the validated
`Config`. -/
def load_config (config_dict : List (String × YVal)) : Except String Config :=
  let missing_fields := requiredFields.filter (fun f => (dget config_dict f).isNone)
  if missing_fields.isEmpty then
    let interval := yamlInt ((dget config_dict "interval").getD (.int 0))
    let base_location := yamlStr ((dget config_dict "base_location").getD (.str ""))
    let file_name_format :=
      yamlStr ((dget config_dict "file_name_format").getD (.str "tailscale-status-{date}.parquet"))
    mkConfig interval base_location file_name_format
  else
    .error ("Configuration is missing required fields: " ++ String.intercalate ", " missing_fields)

/-! ### Dictionary lemmas -/

theorem dget_eq_none_of_not_mem {α : Type} (d : List (String × α)) (k : String)
    (h : k ∉ dkeys d) : dget d k = none := by
  induction d with
  | nil => rfl
  | cons p rest ih =>
    simp only [dkeys, List.map_cons, List.mem_cons, not_or] at h
    rw [dget, if_neg (fun e => h.1 e.symm)]
    exact ih (by simpa [dkeys] using h.2)

theorem dget_append_right {α : Type} (d1 d2 : List (String × α)) (k : String)
    (h : dget d1 k = none) : dget (d1 ++ d2) k = dget d2 k := by
  induction d1 with
  | nil => rfl
  | cons p rest ih =>
    by_cases hk : p.1 = k
    · rw [dget, if_pos hk] at h
      exact absurd h (by simp)
    · rw [dget, if_neg hk] at h
      rw [List.cons_append, dget, if_neg hk]
      exact ih h

theorem dget_map_replace_self (d : Dict) (k : String) (v : Scalar)
    (h : k ∈ dkeys d) :
    dget (d.map (fun p => if p.1 = k then (p.1, v) else p)) k = some v := by
  induction d with
  | nil => simp [dkeys] at h
  | cons p rest ih =>
    by_cases hk : p.1 = k
    · simp only [List.map_cons, if_pos hk]
      rw [dget, if_pos hk]
    · simp only [dkeys, List.map_cons, List.mem_cons] at h
      have h' : k ∈ dkeys rest := h.resolve_left (fun e => hk e.symm)
      simp only [List.map_cons, if_neg hk]
      rw [dget, if_neg hk]
      exact ih h'

theorem dget_map_replace_ne (d : Dict) (k kk : String) (v : Scalar) (h : kk ≠ k) :
    dget (d.map (fun p => if p.1 = k then (p.1, v) else p)) kk = dget d kk := by
  induction d with
  | nil => rfl
  | cons p rest ih =>
    by_cases hkk : p.1 = kk
    · have hk : ¬ p.1 = k := fun e => h (hkk ▸ e)
      simp only [List.map_cons, if_neg hk]
      rw [dget, if_pos hkk, dget, if_pos hkk]
    · by_cases hk : p.1 = k
      · simp only [List.map_cons, if_pos hk]
        rw [dget, if_neg hkk, dget, if_neg hkk]
        exact ih
      · simp only [List.map_cons, if_neg hk]
        rw [dget, if_neg hkk, dget, if_neg hkk]
        exact ih

theorem dget_dinsert_self (d : Dict) (k : String) (v : Scalar) :
    dget (dinsert d k v) k = some v := by
  unfold dinsert
  by_cases h : k ∈ dkeys d
  · rw [if_pos h]
    exact dget_map_replace_self d k v h
  · rw [if_neg h, dget_append_right _ _ _ (dget_eq_none_of_not_mem d k h)]
    simp [dget]

theorem dget_dinsert_ne (d : Dict) (k kk : String) (v : Scalar) (h : kk ≠ k) :
    dget (dinsert d k v) kk = dget d kk := by
  unfold dinsert
  by_cases hh : k ∈ dkeys d
  · rw [if_pos hh]
    exact dget_map_replace_ne d k kk v h
  · rw [if_neg hh]
    induction d with
    | nil =>
      show dget [(k, v)] kk = dget [] kk
      simp [dget, Ne.symm h]
    | cons p rest ih =>
      by_cases hkk : p.1 = kk
      · rw [List.cons_append, dget, if_pos hkk, dget, if_pos hkk]
      · rw [List.cons_append, dget, if_neg hkk, dget, if_neg hkk]
        exact ih (by simp [dkeys] at hh ⊢; exact fun e => hh.2 e)

theorem dkeys_map_replace (d : Dict) (k : String) (v : Scalar) :
    dkeys (d.map (fun p => if p.1 = k then (p.1, v) else p)) = dkeys d := by
  induction d with
  | nil => rfl
  | cons p rest ih =>
    simp only [dkeys, List.map_cons] at ih ⊢
    rw [ih]
    congr 1
    split <;> rfl

theorem dkeys_dinsert (d : Dict) (k : String) (v : Scalar) :
    dkeys (dinsert d k v) = if k ∈ dkeys d then dkeys d else dkeys d ++ [k] := by
  unfold dinsert
  by_cases h : k ∈ dkeys d
  · rw [if_pos h, if_pos h]
    exact dkeys_map_replace d k v
  · rw [if_neg h, if_neg h]
    simp [dkeys]

theorem nodup_dkeys_dinsert (d : Dict) (k : String) (v : Scalar)
    (h : (dkeys d).Nodup) : (dkeys (dinsert d k v)).Nodup := by
  rw [dkeys_dinsert]
  by_cases hh : k ∈ dkeys d
  · simpa [hh]
  · simp [hh, List.nodup_append, h]

theorem nodup_dkeys_dupdate (d u : Dict) (h : (dkeys d).Nodup) :
    (dkeys (dupdate d u)).Nodup := by
  induction u generalizing d with
  | nil => exact h
  | cons p rest ih => exact ih _ (nodup_dkeys_dinsert d p.1 p.2 h)

theorem length_dinsert_le (d : Dict) (k : String) (v : Scalar) :
    (dinsert d k v).length ≤ d.length + 1 := by
  unfold dinsert
  by_cases h : k ∈ dkeys d <;> simp [h]

theorem length_dupdate_le (d u : Dict) :
    (dupdate d u).length ≤ d.length + u.length := by
  induction u generalizing d with
  | nil => simp [dupdate]
  | cons p rest ih =>
    have h1 := ih (dinsert d p.1 p.2)
    have h2 := length_dinsert_le d p.1 p.2
    simp only [dupdate, List.foldl_cons] at h1 ⊢
    simp only [List.length_cons]
    omega

theorem mem_dkeys_of_dget {α : Type} (d : List (String × α)) (k : String) (v : α)
    (h : dget d k = some v) : k ∈ dkeys d := by
  induction d with
  | nil => simp [dget] at h
  | cons p rest ih =>
    by_cases hk : p.1 = k
    · simp [dkeys, hk.symm]
    · rw [dget, if_neg hk] at h
      simp only [dkeys, List.map_cons, List.mem_cons]
      exact Or.inr (ih h)

/-! ### Flattening invariants -/

/-- The key list of every flattened dict is duplicate-free: the result is a
genuine Python dict. -/
theorem flatten_dict_keys_nodup :
    ∀ (d : JVal) (P sep : String), (dkeys (flatten_dict d P sep)).Nodup :=
  flatten_dict.induct
    (fun d P sep => (dkeys (flatten_dict d P sep)).Nodup)
    (fun xs P sep i items => (dkeys items).Nodup → (dkeys (flattenArr xs P sep i items)).Nodup)
    (fun kvs P sep items => (dkeys items).Nodup → (dkeys (flattenObj kvs P sep items)).Nodup)
    (by intro v P s; simp [flatten_dict, dkeys])
    (by intro kvs P sep ih; exact ih (by simp [dkeys]))
    (by intro xs P sep ih; exact ih (by simp [dkeys]))
    (by intro P sep items h; exact h)
    (by
      intro k v rest P sep items new_key acc ih1 ih2 h
      refine ih2 ?_
      cases v with
      | scalar s => exact nodup_dkeys_dinsert items _ s h
      | obj kvs => exact nodup_dkeys_dupdate items _ h
      | arr xs => exact nodup_dkeys_dupdate items _ h)
    (by intro P sep i items h; exact h)
    (by
      intro v rest P sep i items new_key acc ih1 ih2 h
      refine ih2 ?_
      cases v with
      | scalar s => exact nodup_dkeys_dinsert items _ s h
      | obj kvs => exact nodup_dkeys_dupdate items _ h
      | arr xs => exact nodup_dkeys_dupdate items _ h)

/-- The sequence loop of `_flatten_dict` processes the elements paired with
their 0-based indices starting at `i`, giving the element at index `j` the
child key `arrKey P j` and recursing uniformly. -/
theorem flattenArr_enumFrom (xs : List JVal) (P sep : String) :
    ∀ (i : Nat) (acc : Dict),
      flattenArr xs P sep i acc
        = (List.enumFrom i xs).foldl
            (fun a p => dupdate a (flatten_dict p.2 (arrKey P p.1) sep)) acc := by
  induction xs with
  | nil => intro i acc; rfl
  | cons v rest ih =>
    intro i acc
    rw [List.enumFrom_cons, List.foldl_cons, ← ih]
    cases v with
    | scalar s => rfl
    | obj kvs => rfl
    | arr ys => rfl

/-! ### Claim theorems -/

/-- C1: flattening `{"a": {"b": {"c": 1}}, "a_b": 2}` with the default
separator `_` yields exactly the bindings `a_b_c ↦ 1` and `a_b ↦ 2`, and on
a genuine collision (`{"a": {"b": 1}, "a_b": 2}`) the later-visited value
silently overwrites the earlier one in iteration order, so the literal key
`a_b` holds the documented winner `2`. -/
theorem flatten_collision_example :
    flatten_dict
        (.obj [("a", .obj [("b", .obj [("c", .scalar (.int 1))])]), ("a_b", .scalar (.int 2))])
        "" "_"
      = [("a_b_c", .int 1), ("a_b", .int 2)]
    ∧ flatten_dict (.obj [("a", .obj [("b", .scalar (.int 1))]), ("a_b", .scalar (.int 2))]) "" "_"
      = [("a_b", .int 2)] := by
  constructor <;> decide

/-- C2: `save_status` on an existing file with `n` rows writes exactly
`n + 1` rows — the prior rows first, unchanged and in order, the new
prepared record last — and the column set is the union of the existing
columns and the record's keys in order of first appearance; on a missing
file it writes exactly the one record as the sole row with the record's
keys as columns. -/
theorem save_status_append (base fmt : String) (now : DateTime) (ts : String)
    (d : JVal) (t : Table) :
    (save_status base fmt now ts d (some t)).2.rows = t.rows ++ [prepare_record d ts]
    ∧ (save_status base fmt now ts d (some t)).2.rows.length = t.rows.length + 1
    ∧ (save_status base fmt now ts d (some t)).2.cols
        = t.cols ++ (dkeys (prepare_record d ts)).filter (fun c => ¬ t.cols.contains c)
    ∧ (save_status base fmt now ts d none).2
        = ⟨dkeys (prepare_record d ts), [prepare_record d ts]⟩ := by
  refine ⟨rfl, ?_, rfl, rfl⟩
  show (t.rows ++ [prepare_record d ts]).length = t.rows.length + 1
  simp

/-- C3: every prepared record binds `_timestamp` to the ISO-8601 rendering
of the capture instant (second-or-finer precision, per `isoformat`), the
binding is assigned last so it overwrites any source key that flattened to
`_timestamp`, and the key occurs exactly once in the record. -/
theorem prepare_record_timestamp (d : JVal) (t : DateTime) :
    dget (prepare_record d (isoformat t)) "_timestamp" = some (.str (isoformat t))
    ∧ (dkeys (prepare_record d (isoformat t))).count "_timestamp" = 1 := by
  constructor
  · exact dget_dinsert_self _ _ _
  · have hnd : (dkeys (prepare_record d (isoformat t))).Nodup :=
      nodup_dkeys_dinsert _ _ _ (flatten_dict_keys_nodup d "" "_")
    have hmem : "_timestamp" ∈ dkeys (prepare_record d (isoformat t)) :=
      mem_dkeys_of_dget _ _ _ (dget_dinsert_self _ _ _)
    exact List.count_eq_one_of_mem hnd hmem

/-- C4: flattening a sequence node with prefix `P` gives the element at
0-based index `i` the child key `P ++ "_" ++ i` when `P` is non-empty and
`toString i` when `P` is empty (`arrKey`), recursing into container
elements; in particular `{"items": ["x","y","z"]}` flattens to
`items_0 ↦ "x"`, `items_1 ↦ "y"`, `items_2 ↦ "z"`. -/
theorem flatten_sequence_indexing (xs : List JVal) (P sep : String) :
    flatten_dict (.arr xs) P sep
      = (List.enumFrom 0 xs).foldl
          (fun a p => dupdate a (flatten_dict p.2 (arrKey P p.1) sep)) []
    ∧ flatten_dict
        (.obj [("items", .arr [.scalar (.str "x"), .scalar (.str "y"), .scalar (.str "z")])])
        "" "_"
      = [("items_0", .str "x"), ("items_1", .str "y"), ("items_2", .str "z")] := by
  constructor
  · exact flattenArr_enumFrom xs P sep 0 []
  · decide

/-- C5: the path returned by `save_status` is
`<base_location>/<year>/<zero-padded month>/<template with {date} := yyyymmdd>`
computed from the wall-clock date; for 2025-03-14 with base `/data` and
the default template this is
`/data/2025/03/tailscale-status-20250314.parquet`, and the custom template
`ts-{date}-custom.parquet` renders to `ts-20250314-custom.parquet`. -/
theorem save_status_path (base fmt : String) (now : DateTime) (ts : String)
    (d : JVal) (ex : Option Table) :
    (save_status base fmt now ts d ex).1
      = base ++ "/" ++ toString now.year ++ "/" ++ pad2 now.month ++ "/"
        ++ formatDate fmt (strftimeYmd now)
    ∧ (save_status "/data" "tailscale-status-{date}.parquet" ⟨2025, 3, 14, 0, 0, 0, 0⟩ ts d ex).1
      = "/data/2025/03/tailscale-status-20250314.parquet"
    ∧ formatDate "ts-{date}-custom.parquet" (strftimeYmd ⟨2025, 3, 14, 0, 0, 0, 0⟩)
      = "ts-20250314-custom.parquet" := by
  refine ⟨rfl, rfl, by decide⟩

/-- C6: the flattening function is total on every finite acyclic tree of
mappings, sequences and scalars — it is a well-defined Lean function on
the inductive type `JVal`, and its result size is bounded by the leaf
count of the input. -/
theorem flatten_dict_total :
    ∀ (d : JVal) (P sep : String), (flatten_dict d P sep).length ≤ leaves d :=
  flatten_dict.induct
    (fun d P sep => (flatten_dict d P sep).length ≤ leaves d)
    (fun xs P sep i items => (flattenArr xs P sep i items).length ≤ items.length + leavesArr xs)
    (fun kvs P sep items => (flattenObj kvs P sep items).length ≤ items.length + leavesObj kvs)
    (by intro v P s; exact Nat.le_refl 1)
    (by
      intro kvs P sep ih
      show (flattenObj kvs P sep []).length ≤ leavesObj kvs
      simpa using ih)
    (by
      intro xs P sep ih
      show (flattenArr xs P sep 0 []).length ≤ leavesArr xs
      simpa using ih)
    (by intro P sep items; exact Nat.le_add_right items.length 0)
    (by
      intro k v rest P sep items new_key acc ih1 ih2
      have hacc : acc.length ≤ items.length + leaves v := by
        cases v with
        | scalar s => simpa [leaves] using length_dinsert_le items new_key s
        | obj kvs => exact Nat.le_trans (length_dupdate_le items _) (Nat.add_le_add_left ih1 _)
        | arr xs => exact Nat.le_trans (length_dupdate_le items _) (Nat.add_le_add_left ih1 _)
      calc (flattenObj ((k, v) :: rest) P sep items).length
          = (flattenObj rest P sep acc).length := rfl
        _ ≤ acc.length + leavesObj rest := ih2
        _ ≤ (items.length + leaves v) + leavesObj rest := Nat.add_le_add_right hacc _
        _ = items.length + leavesObj ((k, v) :: rest) := Nat.add_assoc _ _ _)
    (by intro P sep i items; exact Nat.le_add_right items.length 0)
    (by
      intro v rest P sep i items new_key acc ih1 ih2
      have hacc : acc.length ≤ items.length + leaves v := by
        cases v with
        | scalar s => simpa [leaves] using length_dinsert_le items new_key s
        | obj kvs => exact Nat.le_trans (length_dupdate_le items _) (Nat.add_le_add_left ih1 _)
        | arr xs => exact Nat.le_trans (length_dupdate_le items _) (Nat.add_le_add_left ih1 _)
      calc (flattenArr (v :: rest) P sep i items).length
          = (flattenArr rest P sep (i + 1) acc).length := rfl
        _ ≤ acc.length + leavesArr rest := ih2
        _ ≤ (items.length + leaves v) + leavesArr rest := Nat.add_le_add_right hacc _
        _ = items.length + leavesArr (v :: rest) := Nat.add_assoc _ _ _)

/-- C7: flattening is deterministic — two prepared records built from the
same unchanged document have identical key lists and identical values at
every key other than `_timestamp`, whatever the two capture timestamps
are. -/
theorem flatten_deterministic (d : JVal) (ts1 ts2 k : String)
    (h : k ≠ "_timestamp") :
    dkeys (prepare_record d ts1) = dkeys (prepare_record d ts2)
    ∧ dget (prepare_record d ts1) k = dget (prepare_record d ts2) k := by
  constructor
  · show dkeys (dinsert (flatten_dict d "" "_") "_timestamp" (.str ts1))
        = dkeys (dinsert (flatten_dict d "" "_") "_timestamp" (.str ts2))
    rw [dkeys_dinsert, dkeys_dinsert]
  · show dget (dinsert (flatten_dict d "" "_") "_timestamp" (.str ts1)) k
        = dget (dinsert (flatten_dict d "" "_") "_timestamp" (.str ts2)) k
    rw [dget_dinsert_ne _ _ _ _ h, dget_dinsert_ne _ _ _ _ h]

/-- Witness for C7 at a concrete document, two concrete timestamps and the
concrete key `"x"`. -/
theorem flatten_deterministic_witness :
    dkeys (prepare_record (.obj [("x", .scalar (.int 1))]) "2025-01-01T00:00:00")
      = dkeys (prepare_record (.obj [("x", .scalar (.int 1))]) "2026-01-01T00:00:00")
    ∧ dget (prepare_record (.obj [("x", .scalar (.int 1))]) "2025-01-01T00:00:00") "x"
      = dget (prepare_record (.obj [("x", .scalar (.int 1))]) "2026-01-01T00:00:00") "x" :=
  flatten_deterministic (.obj [("x", .scalar (.int 1))])
    "2025-01-01T00:00:00" "2026-01-01T00:00:00" "x" (by decide)

/-- C8: constructing a configuration with a non-positive interval yields
the `ValueError` of `Config.__post_init__` and never a `Config`; loading a
configuration dict lacking a required field (`interval` or
`base_location`) yields the `ValueError` naming exactly the missing
fields and never a `Config`. -/
theorem config_validation (iv : Int) (bl fmt : String) (d : List (String × YVal))
    (h1 : iv ≤ 0)
    (h2 : dget d "interval" = none ∨ dget d "base_location" = none) :
    mkConfig iv bl fmt = .error "interval must be greater than 0"
    ∧ (∀ c : Config, mkConfig iv bl fmt ≠ .ok c)
    ∧ load_config d
        = .error ("Configuration is missing required fields: "
            ++ String.intercalate ", " (requiredFields.filter (fun f => (dget d f).isNone)))
    ∧ (∀ c : Config, load_config d ≠ .ok c) := by
  have hmk : mkConfig iv bl fmt = .error "interval must be greater than 0" := by
    unfold mkConfig
    rw [if_pos h1]
  have hf : ∃ f, f ∈ requiredFields.filter (fun f => (dget d f).isNone) := by
    rcases h2 with h | h
    · exact ⟨"interval", List.mem_filter.mpr ⟨by simp [requiredFields], by simp [h]⟩⟩
    · exact ⟨"base_location", List.mem_filter.mpr ⟨by simp [requiredFields], by simp [h]⟩⟩
  have hne : (requiredFields.filter (fun f => (dget d f).isNone)).isEmpty = false := by
    rcases hf with ⟨f, hfmem⟩
    cases hc : requiredFields.filter (fun f => (dget d f).isNone) with
    | nil => rw [hc] at hfmem; simp at hfmem
    | cons a l => rfl
  have hload : load_config d
      = .error ("Configuration is missing required fields: "
          ++ String.intercalate ", " (requiredFields.filter (fun f => (dget d f).isNone))) := by
    unfold load_config
    simp only [hne, Bool.false_eq_true, if_neg, not_false_iff]
  refine ⟨hmk, ?_, hload, ?_⟩
  · intro c hc
    rw [hmk] at hc
    exact Except.noConfusion hc
  · intro c hc
    rw [hload] at hc
    exact Except.noConfusion hc

/-- Witness for C8: interval `0` and the empty configuration dict, which
is missing both required fields. -/
theorem config_validation_witness :
    (0 : Int) ≤ 0
    ∧ (dget ([] : List (String × YVal)) "interval" = none
        ∨ dget ([] : List (String × YVal)) "base_location" = none)
    ∧ (mkConfig 0 "/data" "tailscale-status-{date}.parquet"
          = .error "interval must be greater than 0"
        ∧ (∀ c : Config, mkConfig 0 "/data" "tailscale-status-{date}.parquet" ≠ .ok c)
        ∧ load_config ([] : List (String × YVal))
            = .error ("Configuration is missing required fields: "
                ++ String.intercalate ", "
                  (requiredFields.filter (fun f => (dget ([] : List (String × YVal)) f).isNone)))
        ∧ (∀ c : Config, load_config ([] : List (String × YVal)) ≠ .ok c)) :=
  ⟨by decide, Or.inl rfl,
    config_validation 0 "/data" "tailscale-status-{date}.parquet" [] (by decide) (Or.inl rfl)⟩

/-- C9: flattening invoked directly on a scalar `v` with prefix `P`
(possibly empty) returns the single-entry dict `{P: v}`. -/
theorem flatten_scalar_top (v : Scalar) (P sep : String) :
    flatten_dict (.scalar v) P sep = [(P, v)] := rfl

/-- C10: empty containers vanish — flattening an empty mapping or an empty
sequence yields the empty dict, `{"a": {}}` flattens to the empty dict,
and a mapping or sequence child that is an empty container contributes no
key to the result (for sequence elements the index is still consumed). -/
theorem flatten_empty_containers (P sep k : String) (items : Dict)
    (kvs : List (String × JVal)) (xs : List JVal) (i : Nat) :
    flatten_dict (.obj []) P sep = []
    ∧ flatten_dict (.arr []) P sep = []
    ∧ flatten_dict (.obj [("a", .obj [])]) "" "_" = []
    ∧ flattenObj ((k, .obj []) :: kvs) P sep items = flattenObj kvs P sep items
    ∧ flattenObj ((k, .arr []) :: kvs) P sep items = flattenObj kvs P sep items
    ∧ flattenArr (.obj [] :: xs) P sep i items = flattenArr xs P sep (i + 1) items
    ∧ flattenArr (.arr [] :: xs) P sep i items = flattenArr xs P sep (i + 1) items :=
  ⟨rfl, rfl, rfl, rfl, rfl, rfl, rfl⟩

end TsStats
